import Mathlib

/-!
Verification development for the Nl2SQL backend assistant logic.

The shallow embedding below models the pure string-processing functions of
the assistant module over lists of characters, models the stateful parts
(session memory store, schema description cache, query execution) with
explicit state passing, and proves the behavioural properties claimed in
the specification.
-/

/-- The backtick character, written by code point to keep sources plain. -/
def bq : Char := Char.ofNat 96

/-- Whitespace characters removed by the Python strip method. -/
def isPySpace (c : Char) : Bool :=
  c = ' ' || c = '\t' || c = '\n' || c = '\r' || c = Char.ofNat 11 || c = Char.ofNat 12

/-- Drop leading whitespace, as the left half of the strip method. -/
def pyStripLeft (l : List Char) : List Char := l.dropWhile isPySpace

/-- Drop trailing whitespace, as the right half of the strip method. -/
def pyStripRight (l : List Char) : List Char := (l.reverse.dropWhile isPySpace).reverse

/-- Model of the Python strip method: drop whitespace at both ends. -/
def pyStrip (l : List Char) : List Char := pyStripRight (pyStripLeft l)

/-- Model of the substitution with pattern alternation fence-tag-or-fence and
empty replacement: a left-to-right scan that at each position first tries to
match three backticks followed by the sql tag, then three backticks alone,
removing the matched characters and continuing after them. -/
def removeFences : List Char → List Char
  | c1 :: c2 :: c3 :: r1 :: r2 :: r3 :: rest2 =>
    if c1 = bq ∧ c2 = bq ∧ c3 = bq then
      if r1 = 's' ∧ r2 = 'q' ∧ r3 = 'l' then removeFences rest2
      else removeFences (r1 :: r2 :: r3 :: rest2)
    else c1 :: removeFences (c2 :: c3 :: r1 :: r2 :: r3 :: rest2)
  | c1 :: c2 :: c3 :: rest =>
    if c1 = bq ∧ c2 = bq ∧ c3 = bq then removeFences rest
    else c1 :: removeFences (c2 :: c3 :: rest)
  | l => l

/-- A triple-backtick code fence marker. -/
def fence : List Char := [bq, bq, bq]

/-- A code fence marker followed by the sql language tag. -/
def fenceTag : List Char := [bq, bq, bq, 's', 'q', 'l']

/-- Whether a text contains three consecutive backticks. -/
def hasFence (l : List Char) : Bool := decide (fence <:+: l)

/-- The five SQL keywords of the statement-boundary pattern. -/
def kws : List (List Char) :=
  ["SELECT".data, "WITH".data, "INSERT".data, "UPDATE".data, "DELETE".data]

/-- Whether the text begins with one of the statement keywords. -/
def isKwStart (l : List Char) : Bool := kws.any (fun k => k.isPrefixOf l)

/-- Scan for the first newline immediately followed by a statement keyword and
return the text after that newline; none when no such boundary exists.  This
models the lookahead split with a single split: the split list has the part
before the first boundary and the part after it, and taking the last element
yields the part after the first boundary. -/
def afterFirstKwNewline : List Char → Option (List Char)
  | [] => none
  | c :: rest =>
    if c = '\n' ∧ isKwStart rest = true then some rest
    else afterFirstKwNewline rest

/-- Taking the last element of the single-split: the text after the first
keyword boundary when one exists, the whole text otherwise. -/
def splitStmt (l : List Char) : List Char := (afterFirstKwNewline l).getD l

/-- Model of clean_sql_output: strip, remove code fences, strip, keep the text
from the first keyword-initial line onward, strip. -/
def clean_sql_output (sql : List Char) : List Char :=
  pyStrip (splitStmt (pyStrip (removeFences (pyStrip sql))))

/-- Model of the Python replace method for a nonempty pattern: scan left to
right, replace each leftmost occurrence of k by v and continue after it. -/
def pyReplace (k v : List Char) : List Char → List Char
  | [] => []
  | c :: rest =>
    if k <+: (c :: rest) then v ++ pyReplace k v (rest.drop (k.length - 1))
    else c :: pyReplace k v rest
termination_by l => l.length
decreasing_by
  · simp [List.length_drop]; omega
  · simp

/-- The correction map of commonly hallucinated identifiers, in the insertion
order of the source dictionary. -/
def corrections : List (List Char × List Char) :=
  [("customer_id".data, "customerNumber".data),
   ("order_id".data, "orderNumber".data),
   ("order_details".data, "orderdetails".data),
   ("product_id".data, "productCode".data),
   ("products.price".data, "products.buyPrice".data)]

/-- Model of correct_common_sql_errors: apply each replacement in order. -/
def correct_common_sql_errors (query : List Char) : List Char :=
  corrections.foldl (fun q p => pyReplace p.1 p.2 q) query

/-- Result of running a query: the raw result set text, the sentinel
no-rows record, or the structured error record. -/
inductive QueryResult where
  | rows (s : List Char)
  | info (s : List Char)
  | error (s : List Char)
deriving DecidableEq

/-- Model of execute_query.  The database run is an explicit oracle returning
either a result text or a raised exception message; the try-except block
catches the exception and turns it into the structured error record, so the
function itself is total and never propagates the exception. -/
def execute_query (run : List Char → Except (List Char) (List Char))
    (query : List Char) : QueryResult :=
  match run query with
  | Except.ok r => if r = [] then QueryResult.info ("No results found.".data) else QueryResult.rows r
  | Except.error e => QueryResult.error ("Query failed: ".data ++ e)

/-- Model of the Python str rendering applied to the execution result before
it is handed to the rephrasing stage: a plain string renders as itself, a
dict renders with its key and quoted value. -/
def strQueryResult : QueryResult → List Char
  | QueryResult.rows s => s
  | QueryResult.info s => "\x7b\x27info\x27: \x27".data ++ s ++ "\x27\x7d".data
  | QueryResult.error s => "\x7b\x27error\x27: \x27".data ++ s ++ "\x27\x7d".data

/-- The process-wide session memory: the dictionary from session key to a
reference to a transcript object, a heap assigning each reference its
current transcript, and the next fresh reference. -/
structure MemState where
  store : List Char → Option Nat
  heap : Nat → List (List Char)
  nextRef : Nat

/-- The empty store at process start. -/
def emptyMem : MemState := ⟨fun _ => none, fun _ => [], 0⟩

/-- Model of get_memory: look the session key up in the store; on a miss,
allocate a fresh empty transcript object, record it under the key and return
it, otherwise return the existing object unchanged. -/
def get_memory (session_id : List Char) (st : MemState) : Nat × MemState :=
  match st.store session_id with
  | some r => (r, st)
  | none =>
    (st.nextRef,
     ⟨fun s => if s = session_id then some st.nextRef else st.store s,
      fun x => if x = st.nextRef then [] else st.heap x,
      st.nextRef + 1⟩)

/-- Append one message to the transcript object behind a reference. -/
def appendMsg (r : Nat) (m : List Char) (st : MemState) : MemState :=
  ⟨st.store, fun x => if x = r then st.heap x ++ [m] else st.heap x, st.nextRef⟩

/-- Read the transcript behind a reference. -/
def readTranscript (r : Nat) (st : MemState) : List (List Char) := st.heap r

/-- State of the memoized schema description: the cached value when already
computed, and a count of database introspection round-trips issued so far. -/
structure SchemaState where
  cache : Option (List Char)
  calls : Nat
deriving DecidableEq

/-- The cache state at process start: nothing computed, no round-trips. -/
def initSchema : SchemaState := ⟨none, 0⟩

/-- Model of get_schema_description under the memoizing decorator: on a cache
hit return the cached value with no new round-trip; on a miss issue one
introspection call (its result is the oracle value) and cache it. -/
def get_schema_description (introspect : List Char) (st : SchemaState) :
    List Char × SchemaState :=
  match st.cache with
  | some v => (v, st)
  | none => (introspect, ⟨some introspect, st.calls + 1⟩)

/-- Run a number of successive calls to get_schema_description, collecting
the returned values and threading the cache state. -/
def runSchema (introspect : List Char) : Nat → SchemaState → List (List Char) × SchemaState
  | 0, st => ([], st)
  | Nat.succ n, st =>
    let p := get_schema_description introspect st
    let q := runSchema introspect n p.2
    (p.1 :: q.1, q.2)

/-- Model of process_question.  The language-model calls are oracles: genSql
maps the question and the current session transcript to the raw model output,
and rephrase maps question, query and stringified result to the answer.  The
body mirrors the source: load the session memory for the session key, invoke
the generation chain (which appends the exchange to the transcript), sanitize
with clean_sql_output then correct_common_sql_errors, execute the sanitized
query, and unconditionally invoke the rephrasing stage on question, sanitized
query and stringified result.  The session key defaults to user-1. -/
def process_question (genSql : List Char → List (List Char) → List Char)
    (run : List Char → Except (List Char) (List Char))
    (rephrase : List Char → List Char → List Char → List Char)
    (question : List Char) (st : MemState)
    (session_id : List Char := "user-1".data) : List Char × MemState :=
  let rs := get_memory session_id st
  let raw_sql := genSql question (readTranscript rs.1 rs.2)
  let st2 := appendMsg rs.1 raw_sql (appendMsg rs.1 question rs.2)
  let clean_query := correct_common_sql_errors (clean_sql_output raw_sql)
  let sql_result := execute_query run clean_query
  (rephrase question clean_query (strQueryResult sql_result), st2)

/-- An incoming HTTP request body: the question and the optional session id.
The question field is modelled as present, as the claims only concern the
session-id defaulting. -/
structure HttpRequest where
  question : List Char
  session_id : Option (List Char)

/-- Model of the HTTP view: read the question, substitute the fixed literal
default-session when the body has no session id, and delegate to
process_question. -/
def askQuestionView (genSql : List Char → List (List Char) → List Char)
    (run : List Char → Except (List Char) (List Char))
    (rephrase : List Char → List Char → List Char → List Char)
    (req : HttpRequest) (st : MemState) : List Char × MemState :=
  process_question genSql run rephrase req.question st
    (req.session_id.getD ("default-session".data))

/-- A fixed generation oracle used to instantiate witnesses. -/
def genW : List Char → List (List Char) → List Char := fun _ _ => "SELECT 1".data

/-- A database run oracle that always raises, used to instantiate witnesses. -/
def runErrW : List Char → Except (List Char) (List Char) := fun _ => Except.error ("boom".data)

/-- A database run oracle that always succeeds, used to instantiate witnesses. -/
def runOkW : List Char → Except (List Char) (List Char) := fun _ => Except.ok ("row1".data)

/-- A database run oracle returning an empty result, used in witnesses. -/
def runEmptyW : List Char → Except (List Char) (List Char) := fun _ => Except.ok []

/-- A fixed rephrasing oracle used to instantiate witnesses. -/
def rpW : List Char → List Char → List Char → List Char := fun q query res => q ++ query ++ res

/-! ## Generic list lemmas -/

theorem prefix_append_cases : ∀ (a u b : List Char), u <+: a ++ b →
    u <+: a ∨ ∃ u2, u = a ++ u2 ∧ u2 <+: b := by
  intro a
  induction a with
  | nil => intro u b h; exact Or.inr ⟨u, rfl, h⟩
  | cons c a2 ih =>
    intro u b h
    cases u with
    | nil => exact Or.inl List.nil_prefix
    | cons d u2 =>
      rcases List.cons_prefix_cons.1 h with ⟨hdc, h2⟩
      subst hdc
      rcases ih u2 b h2 with h3 | ⟨u3, hu3, h4⟩
      · exact Or.inl (List.cons_prefix_cons.2 ⟨rfl, h3⟩)
      · exact Or.inr ⟨u3, by simp [hu3], h4⟩

theorem infix_append_split : ∀ (a t b : List Char), t <:+: a ++ b →
    t <:+: a ∨ t <:+: b ∨
      ∃ t1 t2, t = t1 ++ t2 ∧ t1 ≠ [] ∧ t2 ≠ [] ∧ t1 <:+ a ∧ t2 <+: b := by
  intro a
  induction a with
  | nil => intro t b h; exact Or.inr (Or.inl (by simpa using h))
  | cons c a2 ih =>
    intro t b h
    rw [List.cons_append, List.infix_cons_iff] at h
    rcases h with h | h
    · cases t with
      | nil => exact Or.inl List.nil_infix
      | cons d t2 =>
        rcases List.cons_prefix_cons.1 h with ⟨hdc, h2⟩
        subst hdc
        rcases prefix_append_cases a2 t2 b h2 with h3 | ⟨u3, hu3, h4⟩
        · exact Or.inl (List.IsPrefix.isInfix (List.cons_prefix_cons.2 ⟨rfl, h3⟩))
        · cases u3 with
          | nil => exact Or.inl (by simp [hu3])
          | cons e u4 =>
            refine Or.inr (Or.inr ⟨d :: a2, e :: u4, by simp [hu3], by simp, by simp,
              List.suffix_refl _, h4⟩)
    · rcases ih t b h with h3 | h3 | ⟨t1, t2, ht, h1, h2, h4, h5⟩
      · exact Or.inl (List.infix_cons h3)
      · exact Or.inr (Or.inl h3)
      · exact Or.inr (Or.inr ⟨t1, t2, ht, h1, h2, h4.trans (List.suffix_cons c a2), h5⟩)

theorem suffix_tail {d : Char} {u2 t : List Char} (h : (d :: u2) <:+ t) : u2 <:+ t := by
  rcases h with ⟨w, hw⟩
  exact ⟨w ++ [d], by simpa using hw⟩

theorem getLast?_cons_of_ne_nil {a : Char} {l : List Char} (h : l ≠ []) :
    (a :: l).getLast? = l.getLast? := by
  cases l with
  | nil => exact absurd rfl h
  | cons b t => exact List.getLast?_cons_cons

/-! ## Lemmas about pyStrip -/

theorem dropWhile_drop_drop (p : Char → Bool) (l : List Char) :
    (l.dropWhile p).dropWhile p = l.dropWhile p := by
  induction l with
  | nil => rfl
  | cons a t ih =>
    rw [List.dropWhile_cons]
    by_cases h : p a = true
    · rw [if_pos h]; exact ih
    · rw [if_neg h, List.dropWhile_cons, if_neg h]

theorem dropWhile_eq_self_of_front (p : Char → Bool) (l l2 : List Char)
    (hl : l.dropWhile p = l) (hp : l2 <+: l) : l2.dropWhile p = l2 := by
  cases l2 with
  | nil => rfl
  | cons a t =>
    cases l with
    | nil => simp at hp
    | cons b t2 =>
      rcases List.cons_prefix_cons.1 hp with ⟨hab, _⟩
      subst hab
      rw [List.dropWhile_cons] at hl ⊢
      by_cases h : p a = true
      · rw [if_pos h] at hl
        exfalso
        have hsuf := (List.dropWhile_suffix p (l := t2)).length_le
        rw [hl] at hsuf
        simp at hsuf
      · rw [if_neg h]

theorem pyStripLeft_suffix (l : List Char) : pyStripLeft l <:+ l := List.dropWhile_suffix _

theorem pyStripRight_pre (l : List Char) : pyStripRight l <+: l := by
  rw [← List.reverse_suffix]
  unfold pyStripRight
  rw [List.reverse_reverse]
  exact List.dropWhile_suffix _

theorem pyStrip_within (l : List Char) : pyStrip l <:+: l :=
  (List.IsPrefix.isInfix (pyStripRight_pre _)).trans (List.IsSuffix.isInfix (pyStripLeft_suffix _))

theorem pyStripLeft_idem (l : List Char) : pyStripLeft (pyStripLeft l) = pyStripLeft l :=
  dropWhile_drop_drop _ _

theorem pyStripRight_idem (l : List Char) : pyStripRight (pyStripRight l) = pyStripRight l := by
  unfold pyStripRight
  rw [List.reverse_reverse, dropWhile_drop_drop]

theorem pyStrip_idem (l : List Char) : pyStrip (pyStrip l) = pyStrip l := by
  unfold pyStrip
  rw [show pyStripLeft (pyStripRight (pyStripLeft l)) = pyStripRight (pyStripLeft l) from
    dropWhile_eq_self_of_front _ _ _ (pyStripLeft_idem l) (pyStripRight_pre _)]
  exact pyStripRight_idem _

theorem dropWhile_eq_self_of_head (p : Char → Bool) (l : List Char)
    (h : ∀ c, l.head? = some c → p c = false) : l.dropWhile p = l := by
  cases l with
  | nil => rfl
  | cons a t => rw [List.dropWhile_cons, if_neg (by simp [h a rfl])]

theorem pyStrip_eq_self (l : List Char)
    (h1 : ∀ c, l.head? = some c → isPySpace c = false)
    (h2 : ∀ c, l.getLast? = some c → isPySpace c = false) : pyStrip l = l := by
  unfold pyStrip pyStripLeft pyStripRight
  rw [dropWhile_eq_self_of_head _ _ h1]
  rw [dropWhile_eq_self_of_head _ _ (by
    intro c hc
    exact h2 c (by rwa [← List.head?_reverse]))]
  exact List.reverse_reverse l

/-! ## Lemmas about removeFences -/

theorem bb_prefix_iff (x y : Char) (zs : List Char) :
    ([bq, bq] <+: (x :: y :: zs)) ↔ (x = bq ∧ y = bq) := by
  simp [List.cons_prefix_cons, eq_comm]

theorem bq_prefix_iff (x : Char) (zs : List Char) :
    ([bq] <+: (x :: zs)) ↔ x = bq := by
  simp [List.cons_prefix_cons, eq_comm]

theorem fence_prefix_iff (x y z : Char) (zs : List Char) :
    (fence <+: (x :: y :: z :: zs)) ↔ (x = bq ∧ y = bq ∧ z = bq) := by
  show ([bq, bq, bq] <+: _) ↔ _
  simp [List.cons_prefix_cons, eq_comm]

theorem fence_eq_cons : fence = bq :: [bq, bq] := rfl

theorem rf_small : ∀ (l : List Char), l.length ≤ 2 → removeFences l = l := by
  intro l h
  rcases l with _ | ⟨a, _ | ⟨b, _ | ⟨d, t⟩⟩⟩
  · rfl
  · rfl
  · rfl
  · simp at h

theorem rf_head_ne (c : Char) (r : List Char) (hc : c ≠ bq) :
    removeFences (c :: r) = c :: removeFences r := by
  rcases r with _ | ⟨a, _ | ⟨b, _ | ⟨d, _ | ⟨e, _ | ⟨f, t⟩⟩⟩⟩⟩
  · rfl
  · rfl
  · rw [removeFences.eq_2 _ _ _ _ (by rintro _ _ _ _ ⟨⟩), if_neg (by tauto)]
  · rw [removeFences.eq_2 _ _ _ _ (by rintro _ _ _ _ ⟨⟩), if_neg (by tauto)]
  · rw [removeFences.eq_2 _ _ _ _ (by rintro _ _ _ _ ⟨⟩), if_neg (by tauto)]
  · rw [removeFences.eq_1, if_neg (by tauto)]

theorem rf_head_bq_nobb (r : List Char) (hr : ¬ ([bq, bq] <+: r)) :
    removeFences (bq :: r) = bq :: removeFences r := by
  rcases r with _ | ⟨a, _ | ⟨b, t⟩⟩
  · rfl
  · rfl
  · rw [bb_prefix_iff] at hr
    rcases t with _ | ⟨d, _ | ⟨e, _ | ⟨f, t2⟩⟩⟩
    · rw [removeFences.eq_2 _ _ _ _ (by rintro _ _ _ _ ⟨⟩), if_neg (by tauto)]
    · rw [removeFences.eq_2 _ _ _ _ (by rintro _ _ _ _ ⟨⟩), if_neg (by tauto)]
    · rw [removeFences.eq_2 _ _ _ _ (by rintro _ _ _ _ ⟨⟩), if_neg (by tauto)]
    · rw [removeFences.eq_1, if_neg (by tauto)]

theorem rf_not_bb : ∀ (r : List Char), ¬ ([bq, bq] <+: r) → ¬ ([bq, bq] <+: removeFences r) := by
  intro r hr
  rcases r with _ | ⟨x, _ | ⟨y, t⟩⟩
  · rw [rf_small [] (by simp)]; exact hr
  · rw [rf_small [x] (by simp)]; exact hr
  · rw [bb_prefix_iff] at hr
    by_cases hx : x = bq
    · subst hx
      have hy : y ≠ bq := fun h => hr ⟨rfl, h⟩
      rw [rf_head_bq_nobb _ (fun hp => hy ((List.cons_prefix_cons.1 hp).1.symm)),
          rf_head_ne y t hy]
      intro hp
      exact hy ((List.cons_prefix_cons.1 (List.cons_prefix_cons.1 hp).2).1.symm)
    · rw [rf_head_ne x _ hx]
      intro hp
      exact hx ((List.cons_prefix_cons.1 hp).1.symm)

theorem rf_cons_no_fence_front (c : Char) (r : List Char)
    (h : ¬ (c = bq ∧ [bq, bq] <+: r)) : ¬ (fence <+: c :: removeFences r) := by
  intro hp
  rw [fence_eq_cons] at hp
  rcases List.cons_prefix_cons.1 hp with ⟨hc, hbb⟩
  exact rf_not_bb r (fun hx => h ⟨hc.symm, hx⟩) hbb

theorem rf_no_fence : ∀ (l : List Char), ¬ (fence <:+: removeFences l) := by
  intro l
  induction l using removeFences.induct with
  | case1 c1 c2 c3 r1 r2 r3 rest2 h1 h2 ih =>
    rw [removeFences.eq_1, if_pos h1, if_pos h2]; exact ih
  | case2 c1 c2 c3 r1 r2 r3 rest2 h1 h2 ih =>
    rw [removeFences.eq_1, if_pos h1, if_neg h2]; exact ih
  | case3 c1 c2 c3 r1 r2 r3 rest2 h ih =>
    rw [removeFences.eq_1, if_neg h]
    intro hinf
    rcases List.infix_cons_iff.1 hinf with hp | hi
    · exact rf_cons_no_fence_front _ _
        (fun hx => h ⟨hx.1, ((bb_prefix_iff _ _ _).1 hx.2).1, ((bb_prefix_iff _ _ _).1 hx.2).2⟩) hp
    · exact ih hi
  | case4 c1 c2 c3 rest hne h1 ih =>
    rw [removeFences.eq_2 _ _ _ _ hne, if_pos h1]; exact ih
  | case5 c1 c2 c3 rest hne h ih =>
    rw [removeFences.eq_2 _ _ _ _ hne, if_neg h]
    intro hinf
    rcases List.infix_cons_iff.1 hinf with hp | hi
    · exact rf_cons_no_fence_front _ _
        (fun hx => h ⟨hx.1, ((bb_prefix_iff _ _ _).1 hx.2).1, ((bb_prefix_iff _ _ _).1 hx.2).2⟩) hp
    · exact ih hi
  | case6 l h6 h3 =>
    rw [removeFences.eq_3 _ h6 h3]
    intro hinf
    have hlen := hinf.length_le
    rcases l with _ | ⟨a, _ | ⟨b, _ | ⟨d, t⟩⟩⟩
    · simp [fence] at hlen
    · simp [fence] at hlen
    · simp [fence] at hlen
    · exact h3 a b d t rfl

theorem rf_eq_self_of_no_fence : ∀ (l : List Char), ¬ (fence <:+: l) → removeFences l = l := by
  intro l
  induction l using removeFences.induct with
  | case1 c1 c2 c3 r1 r2 r3 rest2 h1 h2 ih =>
    intro hno
    exact absurd (List.IsPrefix.isInfix (by
      rw [fence_eq_cons]
      exact List.cons_prefix_cons.2 ⟨h1.1.symm, (bb_prefix_iff _ _ _).2 ⟨h1.2.1, h1.2.2⟩⟩)) hno
  | case2 c1 c2 c3 r1 r2 r3 rest2 h1 h2 ih =>
    intro hno
    exact absurd (List.IsPrefix.isInfix (by
      rw [fence_eq_cons]
      exact List.cons_prefix_cons.2 ⟨h1.1.symm, (bb_prefix_iff _ _ _).2 ⟨h1.2.1, h1.2.2⟩⟩)) hno
  | case3 c1 c2 c3 r1 r2 r3 rest2 h ih =>
    intro hno
    rw [removeFences.eq_1, if_neg h, ih (fun hx => hno (List.infix_cons hx))]
  | case4 c1 c2 c3 rest hne h1 ih =>
    intro hno
    exact absurd (List.IsPrefix.isInfix (by
      rw [fence_eq_cons]
      exact List.cons_prefix_cons.2 ⟨h1.1.symm, (bb_prefix_iff _ _ _).2 ⟨h1.2.1, h1.2.2⟩⟩)) hno
  | case5 c1 c2 c3 rest hne h ih =>
    intro hno
    rw [removeFences.eq_2 _ _ _ _ hne, if_neg h, ih (fun hx => hno (List.infix_cons hx))]
  | case6 l h6 h3 =>
    intro _
    exact removeFences.eq_3 _ h6 h3

theorem rf_fence_nil : removeFences fence = [] := rfl

theorem rf_append_fence : ∀ (w : List Char), ¬ (fence <:+: w) →
    removeFences (w ++ fence) = w := by
  intro w
  induction w with
  | nil => intro _; exact rf_fence_nil
  | cons c w2 ih =>
    intro h1
    have hrec : removeFences (w2 ++ fence) = w2 :=
      ih (fun hx => h1 (List.infix_cons hx))
    show removeFences (c :: (w2 ++ fence)) = c :: w2
    by_cases hc : c = bq
    · subst hc
      by_cases hbb : [bq, bq] <+: (w2 ++ fence)
      · rcases w2 with _ | ⟨d, _ | ⟨e, w3⟩⟩
        · decide
        · have hd : d = bq := ((bb_prefix_iff _ _ _).1 hbb).1
          subst hd
          decide
        · rcases (bb_prefix_iff _ _ _).1 hbb with ⟨hd, he⟩
          subst hd; subst he
          exact absurd (List.IsPrefix.isInfix (by
            rw [fence_eq_cons]
            exact List.cons_prefix_cons.2 ⟨rfl, (bb_prefix_iff _ _ _).2 ⟨rfl, rfl⟩⟩)) h1
      · rw [rf_head_bq_nobb _ hbb, hrec]
    · rw [rf_head_ne _ _ hc, hrec]

theorem rf_fenceTag_start (l : List Char) : removeFences (fenceTag ++ l) = removeFences l := by
  show removeFences (bq :: bq :: bq :: 's' :: 'q' :: 'l' :: l) = removeFences l
  rw [removeFences.eq_1, if_pos ⟨rfl, rfl, rfl⟩, if_pos ⟨rfl, rfl, rfl⟩]

theorem rf_fence_start (l : List Char) (h : ¬ ("sql".data <+: l)) :
    removeFences (fence ++ l) = removeFences l := by
  rcases l with _ | ⟨r1, _ | ⟨r2, _ | ⟨r3, rest2⟩⟩⟩
  · exact rf_fence_nil
  · show removeFences (bq :: bq :: bq :: [r1]) = removeFences [r1]
    rw [removeFences.eq_2 _ _ _ _ (by rintro _ _ _ _ ⟨⟩), if_pos ⟨rfl, rfl, rfl⟩]
  · show removeFences (bq :: bq :: bq :: [r1, r2]) = removeFences [r1, r2]
    rw [removeFences.eq_2 _ _ _ _ (by rintro _ _ _ _ ⟨⟩), if_pos ⟨rfl, rfl, rfl⟩]
  · show removeFences (bq :: bq :: bq :: r1 :: r2 :: r3 :: rest2) = removeFences (r1 :: r2 :: r3 :: rest2)
    rw [removeFences.eq_1, if_pos ⟨rfl, rfl, rfl⟩, if_neg (by
      intro hx
      exact h (by
        show ['s', 'q', 'l'] <+: _
        exact List.cons_prefix_cons.2 ⟨hx.1.symm, List.cons_prefix_cons.2 ⟨hx.2.1.symm,
          List.cons_prefix_cons.2 ⟨hx.2.2.symm, List.nil_prefix⟩⟩⟩))]

/-! ## Lemmas about pyReplace -/

theorem pyReplace_prefix_back (t k v : List Char)
    (H3 : ∀ s ∈ v.inits, s ≠ [] → ¬ s <:+ t)
    (H4 : ¬ v <:+: t) :
    ∀ n l u, l.length ≤ n → u ≠ [] → u <:+ t → u <+: pyReplace k v l → u <+: l := by
  intro n
  induction n with
  | zero =>
    intro l u hl hu _ hp
    have : l = [] := List.eq_nil_of_length_eq_zero (Nat.le_zero.1 hl)
    subst this
    rw [pyReplace] at hp
    exact absurd (List.prefix_nil.1 hp) hu
  | succ n ih =>
    intro l u hl hu hut hp
    cases l with
    | nil =>
      rw [pyReplace] at hp
      exact absurd (List.prefix_nil.1 hp) hu
    | cons c rest =>
      by_cases hm : k <+: (c :: rest)
      · rw [pyReplace, if_pos hm] at hp
        rcases prefix_append_cases v u _ hp with h1 | ⟨u2, hu2, h2⟩
        · exact absurd hut (H3 u ((List.mem_inits _ _).2 h1) hu)
        · exfalso
          cases u2 with
          | nil =>
            rw [List.append_nil] at hu2
            subst hu2
            exact H3 u ((List.mem_inits _ _).2 (List.prefix_refl u)) hu hut
          | cons e u3 =>
            have hv : v <+: u := hu2 ▸ List.prefix_append v (e :: u3)
            exact H4 (hv.isInfix.trans hut.isInfix)
      · rw [pyReplace, if_neg hm] at hp
        cases u with
        | nil => exact absurd rfl hu
        | cons d u2 =>
          rcases List.cons_prefix_cons.1 hp with ⟨hdc, h2⟩
          subst hdc
          cases u2 with
          | nil => exact List.cons_prefix_cons.2 ⟨rfl, List.nil_prefix⟩
          | cons e u3 =>
            have : (e :: u3) <+: rest :=
              ih rest (e :: u3) (by simp at hl; omega) (by simp)
                (suffix_tail hut) h2
            exact List.cons_prefix_cons.2 ⟨rfl, this⟩

theorem pyReplace_no_new (t k v : List Char) (ht : t ≠ [])
    (H1 : ¬ t <:+: v)
    (H2 : ∀ s ∈ v.tails, s ≠ [] → ¬ s <+: t)
    (H3 : ∀ s ∈ v.inits, s ≠ [] → ¬ s <:+ t)
    (H4 : ¬ v <:+: t) :
    ∀ n l, l.length ≤ n → ¬ t <:+: l → ¬ t <:+: pyReplace k v l := by
  intro n
  induction n with
  | zero =>
    intro l hl hno
    have : l = [] := List.eq_nil_of_length_eq_zero (Nat.le_zero.1 hl)
    subst this
    rw [pyReplace]
    simpa using ht
  | succ n ih =>
    intro l hl hno
    cases l with
    | nil => rw [pyReplace]; simpa using ht
    | cons c rest =>
      by_cases hm : k <+: (c :: rest)
      · rw [pyReplace, if_pos hm]
        intro hinf
        rcases infix_append_split v t _ hinf with h1 | h1 | ⟨t1, t2, hteq, ht1, ht2, h4, h5⟩
        · exact H1 h1
        · have hdrop : ¬ t <:+: rest.drop (k.length - 1) := by
            intro hx
            exact hno (hx.trans (List.IsSuffix.isInfix (by
              have : rest.drop (k.length - 1) <:+ rest := List.drop_suffix _ _
              exact this.trans (List.suffix_cons c rest))))
          exact ih (rest.drop (k.length - 1))
            (by simp [List.length_drop] at hl ⊢; omega) hdrop h1
        · exact H2 t1 ((List.mem_tails _ _).2 h4) ht1 (hteq ▸ List.prefix_append t1 t2)
      · rw [pyReplace, if_neg hm]
        intro hinf
        rcases List.infix_cons_iff.1 hinf with h1 | h1
        · cases t with
          | nil => exact ht rfl
          | cons d t2 =>
            rcases List.cons_prefix_cons.1 h1 with ⟨hdc, h2⟩
            subst hdc
            cases t2 with
            | nil => exact hno (List.IsPrefix.isInfix (List.cons_prefix_cons.2 ⟨rfl, List.nil_prefix⟩))
            | cons e t3 =>
              have hpre : (e :: t3) <+: rest :=
                pyReplace_prefix_back (d :: e :: t3) k v H3 H4 rest.length rest (e :: t3)
                  le_rfl (by simp) (suffix_tail (List.suffix_refl _)) h2
              exact hno (List.IsPrefix.isInfix (List.cons_prefix_cons.2 ⟨rfl, hpre⟩))
        · exact ih rest (by simp at hl; omega)
            (fun hx => hno (List.infix_cons hx)) h1

theorem pyReplace_removes (k v : List Char) (hk : k ≠ [])
    (H1 : ¬ k <:+: v)
    (H2 : ∀ s ∈ v.tails, s ≠ [] → ¬ s <+: k)
    (H3 : ∀ s ∈ v.inits, s ≠ [] → ¬ s <:+ k)
    (H4 : ¬ v <:+: k) :
    ∀ n l, l.length ≤ n → ¬ k <:+: pyReplace k v l := by
  intro n
  induction n with
  | zero =>
    intro l hl
    have : l = [] := List.eq_nil_of_length_eq_zero (Nat.le_zero.1 hl)
    subst this
    rw [pyReplace]
    simpa using hk
  | succ n ih =>
    intro l hl
    cases l with
    | nil => rw [pyReplace]; simpa using hk
    | cons c rest =>
      by_cases hm : k <+: (c :: rest)
      · rw [pyReplace, if_pos hm]
        intro hinf
        rcases infix_append_split v k _ hinf with h1 | h1 | ⟨t1, t2, hteq, ht1, ht2, h4, h5⟩
        · exact H1 h1
        · exact ih (rest.drop (k.length - 1))
            (by simp [List.length_drop] at hl ⊢; omega) h1
        · exact H2 t1 ((List.mem_tails _ _).2 h4) ht1 (hteq ▸ List.prefix_append t1 t2)
      · rw [pyReplace, if_neg hm]
        intro hinf
        rcases List.infix_cons_iff.1 hinf with h1 | h1
        · cases hke : k with
          | nil => exact hk hke
          | cons d k2 =>
            subst hke
            rcases List.cons_prefix_cons.1 h1 with ⟨hdc, h2⟩
            subst hdc
            cases k2 with
            | nil => exact hm (List.cons_prefix_cons.2 ⟨rfl, List.nil_prefix⟩)
            | cons e k3 =>
              have hpre : (e :: k3) <+: rest :=
                pyReplace_prefix_back (d :: e :: k3) (d :: e :: k3) v H3 H4 rest.length rest
                  (e :: k3) le_rfl (by simp) (suffix_tail (List.suffix_refl _)) h2
              exact hm (List.cons_prefix_cons.2 ⟨rfl, hpre⟩)
        · exact ih rest (by simp at hl; omega) h1

theorem pyReplace_eq_of_absent (k v : List Char) :
    ∀ n l, l.length ≤ n → ¬ k <:+: l → pyReplace k v l = l := by
  intro n
  induction n with
  | zero =>
    intro l hl _
    have : l = [] := List.eq_nil_of_length_eq_zero (Nat.le_zero.1 hl)
    subst this
    rw [pyReplace]
  | succ n ih =>
    intro l hl hno
    cases l with
    | nil => rw [pyReplace]
    | cons c rest =>
      have hm : ¬ k <+: (c :: rest) := fun hx => hno hx.isInfix
      rw [pyReplace, if_neg hm]
      rw [ih rest (by simp at hl; omega) (fun hx => hno (List.infix_cons hx))]

theorem pyReplace_no_new_all (t k v : List Char) (ht : t ≠ [])
    (H1 : ¬ t <:+: v) (H2 : ∀ s ∈ v.tails, s ≠ [] → ¬ s <+: t)
    (H3 : ∀ s ∈ v.inits, s ≠ [] → ¬ s <:+ t) (H4 : ¬ v <:+: t)
    (l : List Char) (hno : ¬ t <:+: l) : ¬ t <:+: pyReplace k v l :=
  pyReplace_no_new t k v ht H1 H2 H3 H4 l.length l le_rfl hno

theorem pyReplace_removes_all (k v : List Char) (hk : k ≠ [])
    (H1 : ¬ k <:+: v) (H2 : ∀ s ∈ v.tails, s ≠ [] → ¬ s <+: k)
    (H3 : ∀ s ∈ v.inits, s ≠ [] → ¬ s <:+ k) (H4 : ¬ v <:+: k)
    (l : List Char) : ¬ k <:+: pyReplace k v l :=
  pyReplace_removes k v hk H1 H2 H3 H4 l.length l le_rfl

theorem pyReplace_id_all (k v l : List Char) (hno : ¬ k <:+: l) : pyReplace k v l = l :=
  pyReplace_eq_of_absent k v l.length l le_rfl hno

/-! ## Lemmas about the keyword boundary scan -/

theorem afn_nil : afterFirstKwNewline [] = none := rfl

theorem afn_cons (c : Char) (rest : List Char) :
    afterFirstKwNewline (c :: rest) =
      if c = '\n' ∧ isKwStart rest = true then some rest
      else afterFirstKwNewline rest := rfl

theorem isPrefixOf_append_newline (b1 b2 : List Char) :
    ∀ (a kw : List Char), (∀ ch ∈ kw, ch ≠ '\n') →
      (kw.isPrefixOf (a ++ '\n' :: b1) = kw.isPrefixOf (a ++ '\n' :: b2)) := by
  intro a
  induction a with
  | nil =>
    intro kw hkw
    cases kw with
    | nil => rfl
    | cons k kw2 =>
      have hk : (k == '\n') = false := by
        simp only [beq_eq_false_iff_ne]
        exact hkw k (List.mem_cons_self k kw2)
      simp [List.isPrefixOf, hk]
  | cons c a2 ih =>
    intro kw hkw
    cases kw with
    | nil => rfl
    | cons k kw2 =>
      simp only [List.cons_append, List.isPrefixOf, List.append_eq]
      rw [ih kw2 (fun ch hch => hkw ch (List.mem_cons_of_mem k hch))]

theorem isKwStart_append_newline (a b1 b2 : List Char) :
    isKwStart (a ++ '\n' :: b1) = isKwStart (a ++ '\n' :: b2) := by
  unfold isKwStart kws
  simp only [List.any_cons, List.any_nil]
  rw [isPrefixOf_append_newline b1 b2 a _ (by decide),
      isPrefixOf_append_newline b1 b2 a _ (by decide),
      isPrefixOf_append_newline b1 b2 a _ (by decide),
      isPrefixOf_append_newline b1 b2 a _ (by decide),
      isPrefixOf_append_newline b1 b2 a _ (by decide)]

theorem afn_append (p s : List Char) (hp : afterFirstKwNewline (p ++ ['\n']) = none)
    (hs : isKwStart s = true) : afterFirstKwNewline (p ++ '\n' :: s) = some s := by
  induction p with
  | nil =>
    show afterFirstKwNewline ('\n' :: s) = some s
    rw [afn_cons, if_pos ⟨rfl, hs⟩]
  | cons c p2 ih =>
    show afterFirstKwNewline (c :: (p2 ++ '\n' :: s)) = some s
    rw [show (c :: p2) ++ ['\n'] = c :: (p2 ++ ['\n']) from rfl] at hp
    rw [afn_cons] at hp
    rw [afn_cons]
    by_cases hc : c = '\n' ∧ isKwStart (p2 ++ '\n' :: s) = true
    · exfalso
      rw [isKwStart_append_newline p2 s []] at hc
      rw [if_pos (by exact ⟨hc.1, hc.2⟩)] at hp
      exact Option.some_ne_none _ hp
    · rw [if_neg hc]
      apply ih
      by_cases hc2 : c = '\n' ∧ isKwStart (p2 ++ ['\n']) = true
      · exfalso
        exact hc ⟨hc2.1, by rw [isKwStart_append_newline p2 s []]; exact hc2.2⟩
      · rwa [if_neg hc2] at hp

theorem afn_suffix : ∀ (l s : List Char), afterFirstKwNewline l = some s → s <:+ l := by
  intro l
  induction l with
  | nil => intro s h; simp [afn_nil] at h
  | cons c rest ih =>
    intro s h
    rw [afn_cons] at h
    by_cases hc : c = '\n' ∧ isKwStart rest = true
    · rw [if_pos hc] at h
      injection h with h2
      rw [← h2]
      exact List.suffix_cons c rest
    · rw [if_neg hc] at h
      exact (ih s h).trans (List.suffix_cons c rest)

theorem splitStmt_suffix (l : List Char) : splitStmt l <:+ l := by
  unfold splitStmt
  cases h : afterFirstKwNewline l with
  | none => exact List.suffix_refl l
  | some s => exact afn_suffix l s h

theorem isKwStart_mono (s t : List Char) (h : isKwStart s = true) :
    isKwStart (s ++ t) = true := by
  unfold isKwStart at h ⊢
  rw [List.any_eq_true] at h ⊢
  rcases h with ⟨kw, hkw, hpre⟩
  refine ⟨kw, hkw, ?_⟩
  rw [ List.isPrefixOf_iff_prefix] at hpre ⊢
  exact hpre.trans (List.prefix_append s t)

theorem afn_isSome_iff (l : List Char) :
    (afterFirstKwNewline l).isSome = true ↔
      ∃ a s, l = a ++ '\n' :: s ∧ isKwStart s = true := by
  constructor
  · intro h
    induction l with
    | nil => simp [afn_nil] at h
    | cons c rest ih =>
      rw [afn_cons] at h
      by_cases hc : c = '\n' ∧ isKwStart rest = true
      · exact ⟨[], rest, by rw [hc.1]; rfl, hc.2⟩
      · rw [if_neg hc] at h
        rcases ih h with ⟨a, s, heq, hs⟩
        exact ⟨c :: a, s, by rw [heq]; rfl, hs⟩
  · rintro ⟨a, s, heq, hs⟩
    subst heq
    induction a with
    | nil =>
      rw [show ([] : List Char) ++ '\n' :: s = '\n' :: s from rfl,
        afn_cons, if_pos ⟨rfl, hs⟩]
      rfl
    | cons c a2 ih =>
      rw [show (c :: a2) ++ '\n' :: s = c :: (a2 ++ '\n' :: s) from rfl, afn_cons]
      by_cases hc : c = '\n' ∧ isKwStart (a2 ++ '\n' :: s) = true
      · rw [if_pos hc]; rfl
      · rwa [if_neg hc]

theorem afn_none_mono (l l2 : List Char) (hinf : l2 <:+: l)
    (h : afterFirstKwNewline l = none) : afterFirstKwNewline l2 = none := by
  by_contra hne
  have h2 : (afterFirstKwNewline l2).isSome = true := by
    cases hx : afterFirstKwNewline l2 with
    | none => exact absurd hx hne
    | some s => rfl
  rcases (afn_isSome_iff l2).1 h2 with ⟨a, s, heq, hs⟩
  rcases hinf with ⟨u, v, huv⟩
  have : (afterFirstKwNewline l).isSome = true := by
    rw [(afn_isSome_iff l).2 ⟨u ++ a, s ++ v, by rw [← huv, heq]; simp, isKwStart_mono s v hs⟩]
  rw [h] at this
  simp at this

/-! ## Claim theorems -/

/-- C2: for every query, execute_query never propagates an exception: a
raising database run yields the structured error record with the message, a
successful run with a nonempty result yields that result unchanged, and a
successful run with an empty result yields the no-rows sentinel record. -/
theorem execute_query_total_spec (run : List Char → Except (List Char) (List Char))
    (q : List Char) :
    (∀ e, run q = Except.error e →
        execute_query run q = QueryResult.error ("Query failed: ".data ++ e))
    ∧ (∀ r, run q = Except.ok r → r ≠ [] → execute_query run q = QueryResult.rows r)
    ∧ (run q = Except.ok [] →
        execute_query run q = QueryResult.info ("No results found.".data)) := by
  refine ⟨?_, ?_, ?_⟩
  · intro e h
    simp [execute_query, h]
  · intro r h hr
    simp [execute_query, h, hr]
  · intro h
    simp [execute_query, h]

/-- Witness for the execute_query claim at three concrete database oracles. -/
theorem execute_query_total_spec_witness :
    execute_query runErrW ("SELECT 1".data) = QueryResult.error ("Query failed: ".data ++ "boom".data)
    ∧ execute_query runOkW ("SELECT 1".data) = QueryResult.rows ("row1".data)
    ∧ execute_query runEmptyW ("SELECT 1".data) = QueryResult.info ("No results found.".data) :=
  ⟨(execute_query_total_spec runErrW ("SELECT 1".data)).1 ("boom".data) rfl,
   (execute_query_total_spec runOkW ("SELECT 1".data)).2.1 ("row1".data) rfl (by decide),
   (execute_query_total_spec runEmptyW ("SELECT 1".data)).2.2 rfl⟩

/-- C6: get_memory creates and stores an empty transcript on a miss and
returns the existing object on a hit; two calls with the same key return the
same handle and leave the state unchanged, so an append made through the
handle from one call is visible through the handle from the other. -/
theorem get_memory_spec (st : MemState) (sid : List Char) :
    ((get_memory sid ((get_memory sid st).2)).1 = (get_memory sid st).1)
    ∧ ((get_memory sid ((get_memory sid st).2)).2 = (get_memory sid st).2)
    ∧ (st.store sid = none →
        ((get_memory sid st).2.store sid = some (get_memory sid st).1
          ∧ readTranscript (get_memory sid st).1 (get_memory sid st).2 = []))
    ∧ (∀ r, st.store sid = some r → get_memory sid st = (r, st))
    ∧ (∀ m, readTranscript (get_memory sid ((get_memory sid st).2)).1
          (appendMsg (get_memory sid st).1 m ((get_memory sid ((get_memory sid st).2)).2))
        = readTranscript (get_memory sid ((get_memory sid st).2)).1
            ((get_memory sid ((get_memory sid st).2)).2) ++ [m]) := by
  cases h : st.store sid with
  | some r =>
    refine ⟨?_, ?_, ?_, ?_, ?_⟩ <;> simp [get_memory, h, readTranscript, appendMsg]
  | none =>
    refine ⟨?_, ?_, ?_, ?_, ?_⟩ <;> simp [get_memory, h, readTranscript, appendMsg]

/-- Witness for the get_memory claim at the empty store. -/
theorem get_memory_spec_witness :
    ((get_memory ("s1".data) ((get_memory ("s1".data) emptyMem).2)).1
      = (get_memory ("s1".data) emptyMem).1)
    ∧ ((get_memory ("s1".data) emptyMem).2.store ("s1".data)
        = some (get_memory ("s1".data) emptyMem).1
       ∧ readTranscript (get_memory ("s1".data) emptyMem).1 (get_memory ("s1".data) emptyMem).2 = [])
    ∧ readTranscript (get_memory ("s1".data) ((get_memory ("s1".data) emptyMem).2)).1
          (appendMsg (get_memory ("s1".data) emptyMem).1 ("hi".data)
            ((get_memory ("s1".data) ((get_memory ("s1".data) emptyMem).2)).2))
        = readTranscript (get_memory ("s1".data) ((get_memory ("s1".data) emptyMem).2)).1
            ((get_memory ("s1".data) ((get_memory ("s1".data) emptyMem).2)).2) ++ ["hi".data] :=
  ⟨(get_memory_spec emptyMem ("s1".data)).1,
   (get_memory_spec emptyMem ("s1".data)).2.2.1 rfl,
   (get_memory_spec emptyMem ("s1".data)).2.2.2.2 ("hi".data)⟩

/-- Intermediate fact: once the schema description is cached, further calls
return the cached value and never touch the database again. -/
theorem runSchema_cached (introspect : List Char) (c : Nat) :
    ∀ n, runSchema introspect n ⟨some introspect, c⟩
      = (List.replicate n introspect, ⟨some introspect, c⟩) := by
  intro n
  induction n with
  | zero => rfl
  | succ m ih => simp [runSchema, get_schema_description, ih, List.replicate_succ]

/-- C7: across any number of calls within one process lifetime, every call
returns the identical introspection value, and the number of underlying
database introspection round-trips is at most one (zero for no calls, one
otherwise). -/
theorem get_schema_description_spec (introspect : List Char) (n : Nat) :
    (runSchema introspect n initSchema).1 = List.replicate n introspect
    ∧ (runSchema introspect n initSchema).2.calls = min n 1 := by
  cases n with
  | zero => exact ⟨rfl, rfl⟩
  | succ m =>
    have h1 : get_schema_description introspect initSchema
        = (introspect, ⟨some introspect, 1⟩) := rfl
    constructor
    · simp [runSchema, h1, runSchema_cached, List.replicate_succ]
    · simp [runSchema, h1, runSchema_cached]

/-- C3: the orchestrator executes exactly the sanitized model output, that
is correct_common_sql_errors applied to clean_sql_output applied to the raw
generation, and it has no early exit: the rephrasing oracle is invoked on
the question, the sanitized query and the stringified execution result, in
particular also when execution yields the structured error record. -/
theorem process_question_pipeline
    (genSql : List Char → List (List Char) → List Char)
    (run : List Char → Except (List Char) (List Char))
    (rephrase : List Char → List Char → List Char → List Char)
    (q sid : List Char) (st : MemState) :
    ((process_question genSql run rephrase q st sid).1
      = rephrase q
          (correct_common_sql_errors (clean_sql_output
            (genSql q (readTranscript (get_memory sid st).1 (get_memory sid st).2))))
          (strQueryResult (execute_query run
            (correct_common_sql_errors (clean_sql_output
              (genSql q (readTranscript (get_memory sid st).1 (get_memory sid st).2)))))))
    ∧ (∀ e, run (correct_common_sql_errors (clean_sql_output
          (genSql q (readTranscript (get_memory sid st).1 (get_memory sid st).2)))) = Except.error e →
        (process_question genSql run rephrase q st sid).1
          = rephrase q
              (correct_common_sql_errors (clean_sql_output
                (genSql q (readTranscript (get_memory sid st).1 (get_memory sid st).2))))
              (strQueryResult (QueryResult.error ("Query failed: ".data ++ e)))) := by
  constructor
  · rfl
  · intro e h
    simp [process_question, execute_query, h]

/-- Witness for the pipeline claim: with an always-raising database oracle
the rephraser still receives the error record. -/
theorem process_question_pipeline_witness :
    (process_question genW runErrW rpW ("q1".data) emptyMem).1
      = rpW ("q1".data)
          (correct_common_sql_errors (clean_sql_output
            (genW ("q1".data) (readTranscript (get_memory ("user-1".data) emptyMem).1
              (get_memory ("user-1".data) emptyMem).2))))
          (strQueryResult (QueryResult.error ("Query failed: ".data ++ "boom".data))) :=
  (process_question_pipeline genW runErrW rpW ("q1".data) ("user-1".data) emptyMem).2
    ("boom".data) rfl

/-- C9: the orchestrator defaults the session key to user-1 while the HTTP
view substitutes default-session when the request body omits the session id,
so the built-in default and the HTTP-layer default name different sessions:
starting from the empty store each call creates only its own key. -/
theorem session_default_divergence
    (genSql : List Char → List (List Char) → List Char)
    (run : List Char → Except (List Char) (List Char))
    (rephrase : List Char → List Char → List Char → List Char)
    (q : List Char) (st : MemState) :
    (process_question genSql run rephrase q st
       = process_question genSql run rephrase q st ("user-1".data))
    ∧ (askQuestionView genSql run rephrase ⟨q, none⟩ st
       = process_question genSql run rephrase q st ("default-session".data))
    ∧ ("user-1".data ≠ "default-session".data)
    ∧ ((process_question genSql run rephrase q emptyMem).2.store ("user-1".data) = some 0)
    ∧ ((process_question genSql run rephrase q emptyMem).2.store ("default-session".data) = none)
    ∧ ((askQuestionView genSql run rephrase ⟨q, none⟩ emptyMem).2.store ("default-session".data) = some 0)
    ∧ ((askQuestionView genSql run rephrase ⟨q, none⟩ emptyMem).2.store ("user-1".data) = none) := by
  refine ⟨rfl, rfl, by decide, ?_, ?_, ?_, ?_⟩ <;>
    simp +decide [process_question, askQuestionView, get_memory, emptyMem, appendMsg]

/-- C8: on inputs containing no triple-backtick fence and no newline
immediately followed by a statement keyword, clean_sql_output returns the
whitespace-trimmed input unchanged, and on this domain it is idempotent.
Totality on all inputs holds by construction of the model function. -/
theorem clean_sql_output_plain (l : List Char)
    (h1 : ¬ (fence <:+: l)) (h2 : afterFirstKwNewline l = none) :
    clean_sql_output l = pyStrip l
    ∧ clean_sql_output (clean_sql_output l) = clean_sql_output l := by
  have key : ∀ m, ¬ (fence <:+: m) → afterFirstKwNewline m = none →
      clean_sql_output m = pyStrip m := by
    intro m hm1 hm2
    unfold clean_sql_output
    rw [rf_eq_self_of_no_fence _ (fun hx => hm1 (hx.trans (pyStrip_within m)))]
    rw [pyStrip_idem]
    rw [show splitStmt (pyStrip m) = pyStrip m from by
      unfold splitStmt
      rw [afn_none_mono m (pyStrip m) (pyStrip_within m) hm2]
      rfl]
    exact pyStrip_idem m
  refine ⟨key l h1 h2, ?_⟩
  rw [key l h1 h2]
  rw [key (pyStrip l) (fun hx => h1 (hx.trans (pyStrip_within l)))
    (afn_none_mono l (pyStrip l) (pyStrip_within l) h2)]
  exact pyStrip_idem l

/-- Witness for the plain-input claim at a concrete input. -/
theorem clean_sql_output_plain_witness :
    clean_sql_output ("  SELECT 42  ".data) = pyStrip ("  SELECT 42  ".data)
    ∧ clean_sql_output (clean_sql_output ("  SELECT 42  ".data))
        = clean_sql_output ("  SELECT 42  ".data) :=
  clean_sql_output_plain ("  SELECT 42  ".data) (by decide) (by decide)

/-- C10: the output of clean_sql_output never contains three consecutive
backticks, whatever the input: every fence occurrence is removed wherever
it appears in the text. -/
theorem clean_sql_output_no_fence (l : List Char) :
    hasFence (clean_sql_output l) = false := by
  unfold hasFence
  rw [decide_eq_false_iff_not]
  intro h
  have i1 : clean_sql_output l <:+: removeFences (pyStrip l) := by
    unfold clean_sql_output
    exact (pyStrip_within _).trans
      ((List.IsSuffix.isInfix (splitStmt_suffix _)).trans (pyStrip_within _))
  exact rf_no_fence _ (h.trans i1)

/-- Counterexample to the claim that clean_sql_output keeps the text from
the last keyword boundary: with two keyword-initial lines the output keeps
the text from the first boundary on, not the last. -/
theorem clean_sql_output_first_not_last :
    clean_sql_output ("intro\nSELECT 1\nSELECT 2".data) = "SELECT 1\nSELECT 2".data
    ∧ clean_sql_output ("intro\nSELECT 1\nSELECT 2".data) ≠ "SELECT 2".data := by
  constructor
  · decide
  · decide

/-- C1 amended: after trimming and fence removal, when the text decomposes
as a part with no keyword boundary, a newline and a keyword-initial rest,
clean_sql_output returns the text from that first boundary onward, trimmed. -/
theorem clean_sql_output_first_boundary (l p s : List Char)
    (hmid : pyStrip (removeFences (pyStrip l)) = p ++ '\n' :: s)
    (hs : isKwStart s = true)
    (hfirst : afterFirstKwNewline (p ++ ['\n']) = none) :
    clean_sql_output l = pyStrip s := by
  unfold clean_sql_output
  rw [hmid]
  rw [show splitStmt (p ++ '\n' :: s) = s from by
    unfold splitStmt
    rw [afn_append p s hfirst hs]
    rfl]

/-- Witness for the amended first-boundary claim at a concrete input. -/
theorem clean_sql_output_first_boundary_witness :
    clean_sql_output ("note\nSELECT 7".data) = pyStrip ("SELECT 7".data) :=
  clean_sql_output_first_boundary ("note\nSELECT 7".data) ("note".data) ("SELECT 7".data)
    (by decide) (by decide) (by decide)

/-- Helper: a sql-letters prefix of the enclosed text plus closing fence can
only come from the enclosed text itself. -/
theorem sql_prefix_append_fence (w : List Char) (h : "sql".data <+: (w ++ fence)) :
    "sql".data <+: w := by
  have h2 : (['s', 'q', 'l'] : List Char) <+: (w ++ fence) := h
  rcases w with _ | ⟨a, _ | ⟨b, _ | ⟨d, t⟩⟩⟩
  · exact absurd h2 (by decide)
  · simp only [List.cons_append, List.nil_append] at h2
    rcases List.cons_prefix_cons.1 h2 with ⟨h3, h4⟩
    rcases List.cons_prefix_cons.1 h4 with ⟨h5, _⟩
    exact absurd h5 (by decide)
  · simp only [List.cons_append, List.nil_append] at h2
    rcases List.cons_prefix_cons.1 h2 with ⟨h3, h4⟩
    rcases List.cons_prefix_cons.1 h4 with ⟨h5, h6⟩
    rcases List.cons_prefix_cons.1 h6 with ⟨h7, _⟩
    exact absurd h7 (by decide)
  · simp only [List.cons_append] at h2
    rcases List.cons_prefix_cons.1 h2 with ⟨h3, h4⟩
    rcases List.cons_prefix_cons.1 h4 with ⟨h5, h6⟩
    rcases List.cons_prefix_cons.1 h6 with ⟨h7, _⟩
    subst h3; subst h5; subst h7
    show (['s', 'q', 'l'] : List Char) <+: _
    exact List.cons_prefix_cons.2 ⟨rfl, List.cons_prefix_cons.2 ⟨rfl,
      List.cons_prefix_cons.2 ⟨rfl, List.nil_prefix⟩⟩⟩

/-- Counterexample to the claim that a fenced input always yields the
enclosed text trimmed: with prose before a keyword-initial line inside the
fences, the keyword split also fires and drops the prose. -/
theorem clean_sql_output_fenced_cx :
    clean_sql_output ("```sql\nnote\nSELECT 1\n```".data) = "SELECT 1".data
    ∧ clean_sql_output ("```sql\nnote\nSELECT 1\n```".data) ≠ "note\nSELECT 1".data := by
  constructor
  · decide
  · decide

/-- C5 amended: for inputs wrapped in triple-backtick fences (with or
without the sql language tag), provided the enclosed text contains no fence,
does not itself start with the sql letters, and its trimmed form has no
keyword boundary, clean_sql_output removes the fence markers and returns
the enclosed text trimmed. -/
theorem clean_sql_output_fenced (w : List Char)
    (h1 : ¬ (fence <:+: w))
    (h3 : ¬ ("sql".data <+: w))
    (h4 : afterFirstKwNewline (pyStrip w) = none) :
    clean_sql_output (fenceTag ++ w ++ fence) = pyStrip w
    ∧ clean_sql_output (fence ++ w ++ fence) = pyStrip w := by
  have tailSteps : ∀ u : List Char, pyStrip u = u → removeFences u = w →
      clean_sql_output u = pyStrip w := by
    intro u hu hrf
    unfold clean_sql_output
    rw [hu, hrf]
    rw [show splitStmt (pyStrip w) = pyStrip w from by
      unfold splitStmt
      rw [h4]
      rfl]
    exact pyStrip_idem w
  constructor
  · apply tailSteps
    · apply pyStrip_eq_self
      · intro c hc
        rw [show fenceTag ++ w ++ fence = bq :: ([bq, bq, 's', 'q', 'l'] ++ w ++ fence) from by
          simp [fenceTag], List.head?_cons] at hc
        injection hc with hc2
        subst hc2
        decide
      · intro c hc
        rw [List.getLast?_append] at hc
        simp [fence] at hc
        subst hc
        decide
    · rw [List.append_assoc, rf_fenceTag_start, rf_append_fence w h1]
  · apply tailSteps
    · apply pyStrip_eq_self
      · intro c hc
        rw [show fence ++ w ++ fence = bq :: ([bq, bq] ++ w ++ fence) from by
          simp [fence], List.head?_cons] at hc
        injection hc with hc2
        subst hc2
        decide
      · intro c hc
        rw [List.getLast?_append] at hc
        simp [fence] at hc
        subst hc
        decide
    · rw [List.append_assoc, rf_fence_start _ (fun hx => h3 (sql_prefix_append_fence w hx)),
        rf_append_fence w h1]

/-- Witness for the amended fenced-input claim at a concrete enclosed text
that ends with a backtick-quoted identifier. -/
theorem clean_sql_output_fenced_witness :
    clean_sql_output (fenceTag ++ "\nSELECT a FROM \x60t\x60".data ++ fence)
      = pyStrip ("\nSELECT a FROM \x60t\x60".data)
    ∧ clean_sql_output (fence ++ "\nSELECT a FROM \x60t\x60".data ++ fence)
      = pyStrip ("\nSELECT a FROM \x60t\x60".data) :=
  clean_sql_output_fenced ("\nSELECT a FROM \x60t\x60".data) (by decide) (by decide) (by decide)

/-- C4: inputs containing none of the correction keys are returned
unchanged; every occurrence of each key is replaced with its mapped value,
so no key occurrence survives in the output, and in particular every
occurrence of customer_id becomes customerNumber. -/
theorem correct_common_sql_errors_spec (l : List Char) :
    ((∀ p ∈ corrections, ¬ (p.1 <:+: l)) → correct_common_sql_errors l = l)
    ∧ (∀ p ∈ corrections, ¬ (p.1 <:+: correct_common_sql_errors l))
    ∧ correct_common_sql_errors ("SELECT customer_id FROM customers WHERE customer_id > 5".data)
      = "SELECT customerNumber FROM customers WHERE customerNumber > 5".data := by
  refine ⟨?_, ?_, ?_⟩
  · intro hall
    have k1 := hall ("customer_id".data, "customerNumber".data) (by simp [corrections])
    have k2 := hall ("order_id".data, "orderNumber".data) (by simp [corrections])
    have k3 := hall ("order_details".data, "orderdetails".data) (by simp [corrections])
    have k4 := hall ("product_id".data, "productCode".data) (by simp [corrections])
    have k5 := hall ("products.price".data, "products.buyPrice".data) (by simp [corrections])
    show List.foldl _ l corrections = l
    simp only [corrections, List.foldl]
    rw [pyReplace_id_all _ _ _ k1, pyReplace_id_all _ _ _ k2, pyReplace_id_all _ _ _ k3,
      pyReplace_id_all _ _ _ k4, pyReplace_id_all _ _ _ k5]
  · intro p hp
    have hfold : correct_common_sql_errors l
        = pyReplace ("products.price".data) ("products.buyPrice".data)
            (pyReplace ("product_id".data) ("productCode".data)
              (pyReplace ("order_details".data) ("orderdetails".data)
                (pyReplace ("order_id".data) ("orderNumber".data)
                  (pyReplace ("customer_id".data) ("customerNumber".data) l)))) := by
      simp only [correct_common_sql_errors, corrections, List.foldl]
    rw [hfold]
    simp only [corrections, List.mem_cons, List.not_mem_nil, or_false] at hp
    rcases hp with hp | hp | hp | hp | hp <;> subst hp
    · apply pyReplace_no_new_all _ _ _ (by decide) (by decide) (by decide) (by decide) (by decide)
      apply pyReplace_no_new_all _ _ _ (by decide) (by decide) (by decide) (by decide) (by decide)
      apply pyReplace_no_new_all _ _ _ (by decide) (by decide) (by decide) (by decide) (by decide)
      apply pyReplace_no_new_all _ _ _ (by decide) (by decide) (by decide) (by decide) (by decide)
      apply pyReplace_removes_all _ _ (by decide) (by decide) (by decide) (by decide) (by decide)
    · apply pyReplace_no_new_all _ _ _ (by decide) (by decide) (by decide) (by decide) (by decide)
      apply pyReplace_no_new_all _ _ _ (by decide) (by decide) (by decide) (by decide) (by decide)
      apply pyReplace_no_new_all _ _ _ (by decide) (by decide) (by decide) (by decide) (by decide)
      apply pyReplace_removes_all _ _ (by decide) (by decide) (by decide) (by decide) (by decide)
    · apply pyReplace_no_new_all _ _ _ (by decide) (by decide) (by decide) (by decide) (by decide)
      apply pyReplace_no_new_all _ _ _ (by decide) (by decide) (by decide) (by decide) (by decide)
      apply pyReplace_removes_all _ _ (by decide) (by decide) (by decide) (by decide) (by decide)
    · apply pyReplace_no_new_all _ _ _ (by decide) (by decide) (by decide) (by decide) (by decide)
      apply pyReplace_removes_all _ _ (by decide) (by decide) (by decide) (by decide) (by decide)
    · apply pyReplace_removes_all _ _ (by decide) (by decide) (by decide) (by decide) (by decide)
  · simp +decide [correct_common_sql_errors, corrections, pyReplace]

/-- Witness for the correction-map claim: a key-free input is unchanged and
the first key never survives in an output. -/
theorem correct_common_sql_errors_spec_witness :
    correct_common_sql_errors ("SELECT name FROM employees".data) = "SELECT name FROM employees".data
    ∧ ¬ ("customer_id".data <:+:
          correct_common_sql_errors ("SELECT customer_id FROM customers".data)) :=
  ⟨(correct_common_sql_errors_spec ("SELECT name FROM employees".data)).1 (by decide),
   (correct_common_sql_errors_spec ("SELECT customer_id FROM customers".data)).2.1
     ("customer_id".data, "customerNumber".data) (by decide)⟩

/-- Witness for the session-default claim at concrete oracles. -/
theorem session_default_divergence_witness :
    ((process_question genW runErrW rpW ("q2".data) emptyMem).2.store ("user-1".data) = some 0)
    ∧ ((process_question genW runErrW rpW ("q2".data) emptyMem).2.store ("default-session".data) = none)
    ∧ ((askQuestionView genW runErrW rpW ⟨"q2".data, none⟩ emptyMem).2.store ("default-session".data) = some 0)
    ∧ ((askQuestionView genW runErrW rpW ⟨"q2".data, none⟩ emptyMem).2.store ("user-1".data) = none) :=
  ⟨(session_default_divergence genW runErrW rpW ("q2".data) emptyMem).2.2.2.1,
   (session_default_divergence genW runErrW rpW ("q2".data) emptyMem).2.2.2.2.1,
   (session_default_divergence genW runErrW rpW ("q2".data) emptyMem).2.2.2.2.2.1,
   (session_default_divergence genW runErrW rpW ("q2".data) emptyMem).2.2.2.2.2.2⟩
